import Mathlib

/-
Verification of the mortality-data cleaning pipeline (mortality_pipeline.py).

The pipeline works over pandas DataFrames.  We embed them shallowly:
a cell is a `Value` (a rational number, a string, or the missing marker
`na`, standing for NaN/None); a DataFrame is an ordered association list
of named columns.  Numeric cells are modelled by `ℚ` (pandas uses int64
and float64; no claim depends on floating-point rounding).  Python
exceptions (KeyError on a missing column) are modelled with `Except`.
-/

namespace Mortality

/-- A cell of a DataFrame: numeric, string, or missing (NaN). -/
inductive Value where
  | num (q : ℚ)
  | str (s : String)
  | na
deriving DecidableEq

/-- Value of a decimal digit string, as Python's int() on a digit-only string
(the regex groups below only ever capture digit runs). -/
def digitsToNat (cs : List Char) : Nat :=
  cs.foldl (fun n c => 10 * n + (c.toNat - 48)) 0

/-- Python's substring containment test (the `in` operator on str). -/
def containsSub (hay needle : List Char) : Bool :=
  match hay with
  | [] => needle.isEmpty
  | _ :: t => needle.isPrefixOf hay || containsSub t needle

/-- Model of `re.search(r"(\d+)\+", s)`: the leftmost maximal digit run that is
immediately followed by a plus sign; returns the value of the captured run.
A greedy `\d+` starting inside a digit run fails exactly when the full run
fails, so advancing the start position one character at a time is faithful. -/
def findPlus : List Char → Option Nat
  | [] => none
  | c :: cs =>
    if c.isDigit then
      match (c :: cs).dropWhile Char.isDigit with
      | '+' :: _ => some (digitsToNat ((c :: cs).takeWhile Char.isDigit))
      | _ => findPlus cs
    else findPlus cs

/-- Model of `re.search(r"(\d+)[\-\–](\d+)", s)`: the leftmost maximal digit run
immediately followed by a hyphen or en-dash and then at least one digit;
returns the values of the two captured runs. -/
def findRange : List Char → Option (Nat × Nat)
  | [] => none
  | c :: cs =>
    if c.isDigit then
      match (c :: cs).dropWhile Char.isDigit with
      | sep :: rest =>
        if sep == '-' || sep == '–' then
          match rest.takeWhile Char.isDigit with
          | [] => findRange cs
          | run2 => some (digitsToNat ((c :: cs).takeWhile Char.isDigit), digitsToNat run2)
        else findRange cs
      | [] => findRange cs
    else findRange cs

/-- Model of `re.search(r"(\d+)", s)`: the leftmost maximal digit run. -/
def findNat : List Char → Option Nat
  | [] => none
  | c :: cs =>
    if c.isDigit then some (digitsToNat ((c :: cs).takeWhile Char.isDigit))
    else findNat cs

/-- Python's `str(group).lower()` on the character list of the label. -/
def lowerChars (g : String) : List Char :=
  g.data.map Char.toLower

/-- Embedding of `parse_age_min` (mortality_pipeline.py lines 16-42).
A missing label (`pd.isna`) is `none`; the branches follow the source order:
"under", "not"/"unknown", the plus pattern, the range pattern, first number. -/
def parse_age_min (group : Option String) : Option Int :=
  match group with
  | none => none
  | some g =>
    let s := lowerChars g
    if containsSub s "under".data then some 0
    else if containsSub s "not".data || containsSub s "unknown".data then none
    else
      match findPlus s with
      | some n => some (n : Int)
      | none =>
        match findRange s with
        | some p => some (p.1 : Int)
        | none => (findNat s).map (fun n => (n : Int))

/-- Embedding of `parse_age_max` (mortality_pipeline.py lines 46-66).
Note the branch order: the range pattern is tried BEFORE the plus pattern,
the opposite of `parse_age_min`; the plus pattern yields `n + 9`. -/
def parse_age_max (group : Option String) : Option Int :=
  match group with
  | none => none
  | some g =>
    let s := lowerChars g
    if containsSub s "under".data then some 1
    else if containsSub s "not".data || containsSub s "unknown".data then none
    else
      match findRange s with
      | some p => some (p.2 : Int)
      | none =>
        match findPlus s with
        | some n => some ((n : Int) + 9)
        | none => (findNat s).map (fun n => (n : Int))

/-! DataFrame model: an ordered association list of named columns. -/

/-- A pandas DataFrame: ordered columns, each a name with its list of cells. -/
structure DF where
  cols : List (String × List Value)
deriving DecidableEq

/-- The column names, in order (`df.columns`). -/
def colNames (df : DF) : List String := df.cols.map Prod.fst

/-- Column access `df[name]`: the first column with this name, if any. -/
def getCol (df : DF) (name : String) : Option (List Value) :=
  (df.cols.find? (fun c => c.1 == name)).map Prod.snd

/-- Number of rows (length of the first column; 0 for an empty frame). -/
def nrows (df : DF) : Nat :=
  match df.cols with
  | [] => 0
  | c :: _ => c.2.length

/-- The drop of a list of columns (`df.drop(columns=names)` with names already
filtered to existing ones, or `errors="ignore"`). -/
def dropCols (df : DF) (names : List String) : DF :=
  ⟨df.cols.filter (fun c => !(names.contains c.1))⟩

/-- Column assignment `df[name] = vals`: replaces the column in place if the
name exists, otherwise appends it on the right (pandas semantics). -/
def setCol (df : DF) (name : String) (vals : List Value) : DF :=
  if df.cols.any (fun c => c.1 == name) then
    ⟨df.cols.map (fun c => if c.1 == name then (c.1, vals) else c)⟩
  else ⟨df.cols ++ [(name, vals)]⟩

/-- In-place elementwise update of one column, `df[name] = df[name].map f`. -/
def mapCol (df : DF) (name : String) (f : Value → Value) : DF :=
  ⟨df.cols.map (fun c => if c.1 == name then (c.1, c.2.map f) else c)⟩

/-- Keep the cells whose mask entry is true (boolean row indexing). -/
def applyMask : List Bool → List Value → List Value
  | true :: m, v :: vs => v :: applyMask m vs
  | false :: m, _ :: vs => applyMask m vs
  | _, _ => []

/-- Row filtering `df[mask]`: apply the same boolean mask to every column. -/
def filterRows (df : DF) (mask : List Bool) : DF :=
  ⟨df.cols.map (fun c => (c.1, applyMask mask c.2))⟩

/-! Cell-level operations used by the cleaning steps. -/

/-- Model of `pd.to_numeric`'s parse of a numeric string: optional sign,
digits, optional decimal point and fraction digits.  (This stands in for the
pandas library parser; the exponent form is not needed by any claim.) -/
def parseNumChars : List Char → Option ℚ
  | cs =>
    let intPart := cs.takeWhile Char.isDigit
    let rest := cs.dropWhile Char.isDigit
    if intPart.isEmpty then none
    else
      match rest with
      | [] => some (digitsToNat intPart : ℚ)
      | '.' :: frac =>
        if frac.all Char.isDigit then
          some ((digitsToNat intPart : ℚ) + (digitsToNat frac : ℚ) / (10 : ℚ) ^ frac.length)
        else none
      | _ => none

/-- Sign handling for the numeric-string parse. -/
def parseNumStr (s : String) : Option ℚ :=
  match s.data with
  | '-' :: rest => (parseNumChars rest).map Neg.neg
  | '+' :: rest => parseNumChars rest
  | cs => parseNumChars cs

/-- One cell of `pd.to_numeric(col, errors="coerce")`: numbers pass through,
NaN stays NaN, a string parses or degrades to NaN. -/
def toNumericCell (v : Value) : Value :=
  match v with
  | .num q => .num q
  | .na => .na
  | .str s =>
    match parseNumStr s with
    | some q => .num q
    | none => .na

/-- One cell of `df["Crude Rate"].astype(str).eq("Unreliable")`: only the
exact string cell "Unreliable" passes (Python str() of a float or of NaN is
never the string "Unreliable"). -/
def isUnreliableCell (v : Value) : Bool :=
  match v with
  | .str s => s == "Unreliable"
  | _ => false

/-- One cell of the `Unreliable_Flag` column (`.astype(int)` of the above). -/
def unreliableFlagCell (v : Value) : Value :=
  .num (if isUnreliableCell v then 1 else 0)

/-- One cell of `df["Sex"].replace({"M": "Male", "F": "Female"})`. -/
def sexCell (v : Value) : Value :=
  match v with
  | .str "M" => .str "Male"
  | .str "F" => .str "Female"
  | v => v

/-- Conversion of an age-group cell to the label handed to the parsers:
`pd.isna` detects the missing cell; a string cell is its own str() form.
(A numeric cell is rendered with toString as a stand-in for Python str();
the age-group column of this dataset holds strings or NaN only.) -/
def cellToLabel (v : Value) : Option String :=
  match v with
  | .na => none
  | .str s => some s
  | .num q => some (toString q)

/-- One cell of the `Age_Min` column. -/
def ageMinCell (v : Value) : Value :=
  match parse_age_min (cellToLabel v) with
  | some n => .num (n : ℚ)
  | none => .na

/-- One cell of the `Age_Max` column. -/
def ageMaxCell (v : Value) : Value :=
  match parse_age_max (cellToLabel v) with
  | some n => .num (n : ℚ)
  | none => .na

/-- One cell of `(df["Age_Min"] + df["Age_Max"]) / 2` (NaN propagates). -/
def midCell (a b : Value) : Value :=
  match a, b with
  | .num x, .num y => .num ((x + y) / 2)
  | _, _ => .na

/-- One cell of `(df["Deaths"] / df["Population"]) * 100000` composed with the
line-132 normalization replacing ±inf by NaN: a NaN operand propagates NaN,
float division by zero gives ±inf (or NaN for 0/0) which the normalization
turns into NaN, so a zero population yields the missing value. -/
def divCell (d p : Value) : Value :=
  match d, p with
  | .num dq, .num pq => if pq = 0 then .na else .num (dq / pq * 100000)
  | _, _ => .na

/-- Predicate cell of `df["Population"] > 0` (NaN or non-numeric compares False). -/
def posCell (v : Value) : Bool :=
  match v with
  | .num q => decide (0 < q)
  | _ => false

/-- Predicate cell of `df["Deaths"] >= 0` (NaN or non-numeric compares False). -/
def nonnegCell (v : Value) : Bool :=
  match v with
  | .num q => decide (0 ≤ q)
  | _ => false

/-! The numbered steps of `clean_mortality` (mortality_pipeline.py 87-137). -/

/-- The redundant code columns dropped by step 1 (lines 92-99). -/
def redundant_cols : List String :=
  ["State Code", "Year Code", "Ten-Year Age Groups Code", "Race Code",
   "Sex Code", "Single Race 6 Code"]

/-- Step 1 (line 100): drop the redundant code columns that are present. -/
def step1 (df : DF) : DF := dropCols df redundant_cols

/-- Step 2 (lines 102-106): flag unreliable crude rates BEFORE numeric
conversion; with no "Crude Rate" column the flag is the scalar 0 broadcast. -/
def step2 (df : DF) : DF :=
  match getCol df "Crude Rate" with
  | some c => setCol df "Unreliable_Flag" (c.map unreliableFlagCell)
  | none => setCol df "Unreliable_Flag" (List.replicate (nrows df) (.num 0))

/-- One iteration of the step-3 loop: coerce the column if it is present. -/
def coerceIfPresent (df : DF) (col : String) : DF :=
  if (colNames df).contains col then mapCol df col toNumericCell else df

/-- Step 3 (lines 108-111): coerce Year, Deaths, Population to numeric. -/
def step3 (df : DF) : DF :=
  ["Year", "Deaths", "Population"].foldl coerceIfPresent df

/-- The in-place part of step 4 (lines 115 and 118): store the coerced crude
rate in `CrudeRate_Reported` (all-NaN when the source column is absent). -/
def step4a (df : DF) : DF :=
  match getCol df "Crude Rate" with
  | some c => setCol df "CrudeRate_Reported" (c.map toNumericCell)
  | none => setCol df "CrudeRate_Reported" (List.replicate (nrows df) .na)

/-- Step 4 (lines 113-118): after the assignment, the original string-typed
"Crude Rate" column is dropped (only in the branch where it exists). -/
def step4 (df : DF) : DF :=
  match getCol df "Crude Rate" with
  | some _ => dropCols (step4a df) ["Crude Rate"]
  | none => step4a df

/-- Step 5 (lines 120-122): expand the single-letter Sex codes. -/
def step5 (df : DF) : DF :=
  if (colNames df).contains "Sex" then mapCol df "Sex" sexCell else df

/-- Step 6 (lines 124-128): derive Age_Min / Age_Max / Age_Mid from the
age-group label column when it is present; otherwise add nothing.
`Age_Mid` is computed from the two freshly assigned columns, whose cell
lists are the two maps below. -/
def step6 (df : DF) : DF :=
  match getCol df "Ten-Year Age Groups" with
  | some ag =>
    setCol (setCol (setCol df "Age_Min" (ag.map ageMinCell))
        "Age_Max" (ag.map ageMaxCell))
      "Age_Mid" (List.zipWith midCell (ag.map ageMinCell) (ag.map ageMaxCell))
  | none => df

/-- Step 7 (lines 130-132): `df["CrudeRate_Calculated"] = (df["Deaths"] /
df["Population"]) * 100000` then inf-to-NaN normalization.  The column
accesses are NOT guarded: a frame without "Deaths" (checked first) or
"Population" raises KeyError. -/
def step7 (df : DF) : Except String DF :=
  match getCol df "Deaths" with
  | none => .error "KeyError: Deaths"
  | some ds =>
    match getCol df "Population" with
    | none => .error "KeyError: Population"
    | some ps => .ok (setCol df "CrudeRate_Calculated" (List.zipWith divCell ds ps))

/-- Step 8 (lines 134-135): `df = df[(df["Population"] > 0) & (df["Deaths"] >= 0)]`.
The accesses are unguarded ("Population" is evaluated first). -/
def step8 (df : DF) : Except String DF :=
  match getCol df "Population" with
  | none => .error "KeyError: Population"
  | some ps =>
    match getCol df "Deaths" with
    | none => .error "KeyError: Deaths"
    | some ds =>
      .ok (filterRows df (List.zipWith (fun p d => posCell p && nonnegCell d) ps ds))

/-- Embedding of `clean_mortality` (lines 87-137).  The initial `df.copy()`
is the identity on the value level; the heap model below accounts for the
aliasing it prevents.  A KeyError raised by step 7 propagates; otherwise the
result is the filtered frame of step 8. -/
def clean_mortality (df : DF) : Except String DF :=
  match step7 (step6 (step5 (step4 (step3 (step2 (step1 df)))))) with
  | .error e => .error e
  | .ok d7 => step8 d7

/-! Heap model of the Python call: DataFrames are mutable objects, a variable
holds a reference.  `clean_mortality` first rebinds its local name to a copy
(line 89), so the in-place column assignments and the in-place replace of
line 132 hit the copy, never the caller's frame. -/

/-- The Python heap: objects indexed by allocation order. -/
structure PyHeap where
  objs : List DF
deriving DecidableEq

/-- Dereference (an invalid reference reads an empty frame; the theorems only
use valid references). -/
def readRef (h : PyHeap) (r : Nat) : DF := h.objs.getD r ⟨[]⟩

/-- In-place mutation of the object behind a reference. -/
def writeRef (h : PyHeap) (r : Nat) (v : DF) : PyHeap := ⟨h.objs.set r v⟩

/-- Allocation of a fresh object; returns the new heap and the new reference. -/
def allocRef (h : PyHeap) (v : DF) : PyHeap × Nat := (⟨h.objs ++ [v]⟩, h.objs.length)

/-- Line 89, `df = df.copy()`: allocate a fresh object equal in value to the
one behind the reference, and rebind the local name to it. -/
def lineCopy (h : PyHeap) (r : Nat) : PyHeap × Nat := allocRef h (readRef h r)

/-- Line 100, `df = df.drop(columns=...)`: drop returns a new frame; the local
name is rebound to it. -/
def lineDrop (st : PyHeap × Nat) : PyHeap × Nat :=
  allocRef st.1 (step1 (readRef st.1 st.2))

/-- An in-place column assignment: the object behind the current reference is
mutated, the reference is unchanged. -/
def lineWrite (f : DF → DF) (st : PyHeap × Nat) : PyHeap × Nat :=
  (writeRef st.1 st.2 (f (readRef st.1 st.2)), st.2)

/-- Lines 113-118: the assignment of `CrudeRate_Reported` mutates in place;
then, only when "Crude Rate" exists, `df = df.drop(...)` rebinds the local
name to a fresh frame. -/
def lineStep4 (st : PyHeap × Nat) : PyHeap × Nat :=
  match getCol (readRef st.1 st.2) "Crude Rate" with
  | some _ =>
    allocRef (writeRef st.1 st.2 (step4a (readRef st.1 st.2)))
      (dropCols (step4a (readRef st.1 st.2)) ["Crude Rate"])
  | none => (writeRef st.1 st.2 (step4a (readRef st.1 st.2)), st.2)

/-- Lines 130-135: the crude-rate computation (a KeyError aborts before the
in-place assignment of line 131 happens), then the boolean indexing of line
135, which returns a fresh frame. -/
def progTail (st : PyHeap × Nat) : PyHeap × Except String Nat :=
  match step7 (readRef st.1 st.2) with
  | .error e => (st.1, .error e)
  | .ok v7 =>
    match step8 (readRef (writeRef st.1 st.2 v7) st.2) with
    | .error e => (writeRef st.1 st.2 v7, .error e)
    | .ok v8 =>
      ((allocRef (writeRef st.1 st.2 v7) v8).1,
        .ok (allocRef (writeRef st.1 st.2 v7) v8).2)

/-- Heap-level run of `clean_mortality` on the object behind `arg`: each
source line is modelled with its actual effect — a fresh object where pandas
returns a new frame (copy, drop, boolean indexing), an in-place write where
pandas assigns a column (or replaces with inplace=True).  Returns the final
heap together with the result reference or the raised error.  The in-place
writes store the value-level step functions: step 2 (lines 102-106), step 3
(lines 108-111), step 5 (lines 120-122, a no-op write when Sex is absent) and
step 6 (lines 124-128). -/
def clean_mortality_prog (h0 : PyHeap) (arg : Nat) : PyHeap × Except String Nat :=
  progTail (lineWrite step6 (lineWrite step5 (lineStep4
    (lineWrite step3 (lineWrite step2 (lineDrop (lineCopy h0 arg)))))))

/-! The Merge & Order Stage's sort (main, lines 155-158).  The merged frame
is viewed row-major here: a shared header and one list of cells per row. -/

/-- Encoding of a key cell into a lexicographically ordered type.  The missing
value sorts last (pandas default na_position="last"); numbers sort before
strings (pandas raises on a mixed-type key column, so that order is a
modelling choice that a homogeneous key column never exercises). -/
def encV : Value → Lex (ℕ × Lex (ℚ × String))
  | .num q => toLex (0, toLex (q, ""))
  | .str s => toLex (1, toLex (0, s))
  | .na => toLex (2, toLex (0, ""))

/-- The composite sort key of line 156. -/
def sort_key_cols : List String := ["State", "Year", "Age_Min", "Sex", "Race"]

/-- The cell of a row under a header (`Value.na` when the column is absent). -/
def rowCell (cols : List String) (row : List Value) (k : String) : Value :=
  match (List.zip cols row).find? (fun c => c.1 == k) with
  | some c => c.2
  | none => .na

/-- The composite sort key of a row, ready for lexicographic comparison. -/
def rowKey (cols : List String) (row : List Value) : List (Lex (ℕ × Lex (ℚ × String))) :=
  sort_key_cols.map (fun k => encV (rowCell cols row k))

/-- The comparator of the sort: lexicographic comparison of composite keys. -/
def rowLe (cols : List String) (a b : List Value) : Bool :=
  decide (rowKey cols a ≤ rowKey cols b)

/-- Embedding of lines 155-158: `merged_clean.sort_values(by=["State", "Year",
"Age_Min", "Sex", "Race"], kind="mergesort")` — a stable mergesort of the rows
by the composite key. -/
def sortStage (cols : List String) (rows : List (List Value)) : List (List Value) :=
  rows.mergeSort (rowLe cols)

/-! Helper lemmas about the DataFrame operations. -/

theorem replace_preserves_fst (n m : String) (vs : List Value) :
    ((fun c : String × List Value => c.1 == m) ∘
      (fun c : String × List Value => if c.1 == n then (c.1, vs) else c)) =
    (fun c : String × List Value => c.1 == m) := by
  funext c
  by_cases hc : c.1 = n <;> simp [hc]

theorem mapSnd_preserves_fst (m : String) (g : List Value → List Value) :
    ((fun c : String × List Value => c.1 == m) ∘
      (fun c : String × List Value => (c.1, g c.2))) =
    (fun c : String × List Value => c.1 == m) := by
  funext c
  simp

theorem condMapSnd_preserves_fst (n m : String) (g : List Value → List Value) :
    ((fun c : String × List Value => c.1 == m) ∘
      (fun c : String × List Value => if c.1 == n then (c.1, g c.2) else c)) =
    (fun c : String × List Value => c.1 == m) := by
  funext c
  by_cases hc : c.1 = n <;> simp [hc]

theorem contains_false_of_notMem {names : List String} {s : String} (h : s ∉ names) :
    names.contains s = false := by
  simpa using h

theorem find?_congr_of_mem {α : Type} {p q : α → Bool} :
    ∀ l : List α, (∀ a ∈ l, p a = q a) → l.find? p = l.find? q := by
  intro l
  induction l with
  | nil => intro _; rfl
  | cons a t ih =>
    intro h
    rcases hp : p a with _ | _
    · have hq : q a = false := by rw [← h a (by simp), hp]
      simp only [List.find?_cons, hp, hq]
      exact ih (fun b hb => h b (by simp [hb]))
    · have hq : q a = true := by rw [← h a (by simp), hp]
      simp only [List.find?_cons, hp, hq]

theorem getCol_setCol_self (df : DF) (n : String) (vs : List Value) :
    getCol (setCol df n vs) n = some vs := by
  unfold getCol setCol
  by_cases hany : df.cols.any (fun c => c.1 == n)
  · simp only [hany, if_true, List.find?_map, replace_preserves_fst]
    rcases List.any_eq_true.mp hany with ⟨c, hc, hp⟩
    have hsome : (df.cols.find? (fun c => c.1 == n)).isSome :=
      List.find?_isSome.mpr ⟨c, hc, hp⟩
    rcases Option.isSome_iff_exists.mp hsome with ⟨d, hd⟩
    have hdn := List.find?_some hd
    rw [hd]
    simp only [beq_iff_eq] at hdn
    simp [hdn]
  · simp only [hany, if_false]
    have hnone : df.cols.find? (fun c => c.1 == n) = none := by
      rcases h : df.cols.find? (fun c => c.1 == n) with _ | d
      · exact h
      · exact absurd (List.any_eq_true.mpr
          ⟨d, List.mem_of_find?_eq_some h, List.find?_some h⟩) hany
    simp [List.find?_append, hnone]

theorem getCol_setCol_ne (df : DF) {n m : String} (h : m ≠ n) (vs : List Value) :
    getCol (setCol df n vs) m = getCol df m := by
  unfold getCol setCol
  by_cases hany : df.cols.any (fun c => c.1 == n)
  · simp only [hany, if_true, List.find?_map, replace_preserves_fst]
    rcases hf : df.cols.find? (fun c => c.1 == m) with _ | d
    · rw [hf]
      rfl
    · have hdm : d.1 = m := by simpa using List.find?_some hf
      have hdn : ¬ d.1 = n := by rw [hdm]; exact h
      rw [hf]
      simp [hdn]
  · simp only [hany, if_false, List.find?_append]
    have : ((n, vs).1 == m) = false := by
      simp only [beq_eq_false_iff_ne, ne_eq]
      exact fun e => h e.symm
    simp [List.find?_cons, this]

theorem getCol_mapCol_ne (df : DF) {n m : String} (h : m ≠ n) (f : Value → Value) :
    getCol (mapCol df n f) m = getCol df m := by
  unfold getCol mapCol
  simp only [List.find?_map, condMapSnd_preserves_fst]
  rcases hf : df.cols.find? (fun c => c.1 == m) with _ | d
  · rw [hf]
    rfl
  · have hdm : d.1 = m := by simpa using List.find?_some hf
    have hdn : ¬ d.1 = n := by rw [hdm]; exact h
    rw [hf]
    simp [hdn]

theorem getCol_mapCol_self (df : DF) (n : String) (f : Value → Value) :
    getCol (mapCol df n f) n = (getCol df n).map (List.map f) := by
  unfold getCol mapCol
  simp only [List.find?_map, condMapSnd_preserves_fst]
  rcases hf : df.cols.find? (fun c => c.1 == n) with _ | d
  · rw [hf]
    rfl
  · have hdn : d.1 = n := by simpa using List.find?_some hf
    rw [hf]
    simp [hdn]

theorem getCol_dropCols_notMem (df : DF) {n : String} {names : List String}
    (h : n ∉ names) : getCol (dropCols df names) n = getCol df n := by
  unfold getCol dropCols
  rw [List.find?_filter]
  congr 1
  apply find?_congr_of_mem
  intro c _
  by_cases hc : c.1 = n
  · simp [hc, h]
  · simp [hc]

theorem getCol_filterRows (df : DF) (mask : List Bool) (n : String) :
    getCol (filterRows df mask) n = (getCol df n).map (applyMask mask) := by
  unfold getCol filterRows
  simp only [List.find?_map, mapSnd_preserves_fst]
  rcases hf : df.cols.find? (fun c => c.1 == n) with _ | d
  · rw [hf]
    rfl
  · rw [hf]
    rfl

theorem getCol_isSome_of_mem {df : DF} {n : String} (h : n ∈ colNames df) :
    ∃ vs, getCol df n = some vs := by
  unfold colNames at h
  rcases List.mem_map.mp h with ⟨c, hc, hcn⟩
  have hsome : (df.cols.find? (fun c => c.1 == n)).isSome :=
    List.find?_isSome.mpr ⟨c, hc, by simp [hcn]⟩
  rcases Option.isSome_iff_exists.mp hsome with ⟨d, hd⟩
  exact ⟨d.2, by unfold getCol; rw [hd]; rfl⟩

theorem colNames_setCol_of_mem (df : DF) {n : String} (m : String) (vs : List Value)
    (h : n ∈ colNames df) : n ∈ colNames (setCol df m vs) := by
  unfold colNames at h ⊢
  unfold setCol
  by_cases hany : df.cols.any (fun c => c.1 == m)
  · simp only [hany, if_true, List.map_map]
    have : (Prod.fst ∘ fun c : String × List Value =>
        if c.1 == m then (c.1, vs) else c) = Prod.fst := by
      funext c
      by_cases hc : c.1 = m <;> simp [hc]
    rw [this]
    exact h
  · rw [Bool.not_eq_true] at hany
    simp only [hany, Bool.false_eq_true, if_false, List.map_append, List.mem_append]
    exact Or.inl h

theorem colNames_mapCol (df : DF) (n : String) (f : Value → Value) :
    colNames (mapCol df n f) = colNames df := by
  unfold colNames mapCol
  rw [List.map_map]
  congr 1
  funext c
  by_cases hc : c.1 = n <;> simp [hc]

theorem colNames_dropCols_of_mem (df : DF) {n : String} {names : List String}
    (hmem : n ∈ colNames df) (hn : n ∉ names) : n ∈ colNames (dropCols df names) := by
  unfold colNames at hmem ⊢
  unfold dropCols
  rcases List.mem_map.mp hmem with ⟨c, hc, hcn⟩
  apply List.mem_map.mpr
  refine ⟨c, List.mem_filter.mpr ⟨hc, ?_⟩, hcn⟩
  subst hcn
  simpa using hn

/-! Facts about the age-label scanning helpers. -/

theorem toLower_of_isDigit {c : Char} (h : c.isDigit = true) : c.toLower = c := by
  simp only [Char.isDigit, Bool.and_eq_true, decide_eq_true_eq] at h
  unfold Char.toLower
  rw [if_neg]
  intro hc
  obtain ⟨h1, h2⟩ := h
  obtain ⟨hc1, hc2⟩ := hc
  have h2n : c.val.toNat ≤ 57 := UInt32.toNat_le_of_le (by decide) h2
  simp [Char.toNat] at hc1
  omega

theorem head_mem_of_containsSub {hay : List Char} {n0 : Char} {ns : List Char}
    (h : containsSub hay (n0 :: ns) = true) : n0 ∈ hay := by
  induction hay with
  | nil =>
    rw [containsSub] at h
    exact absurd h (by simp)
  | cons a t ih =>
    rw [containsSub, Bool.or_eq_true] at h
    rcases h with hp | ht
    · have : n0 = a ∧ ns.isPrefixOf t = true := by
        simpa [List.isPrefixOf] using hp
      rw [this.1]
      exact List.mem_cons_self a t
    · exact List.mem_cons_of_mem a (ih ht)

theorem plus_mem_of_findPlus {l : List Char} {n : Nat} (h : findPlus l = some n) :
    '+' ∈ l := by
  induction l with
  | nil => simp [findPlus] at h
  | cons c cs ih =>
    rw [findPlus] at h
    by_cases hd : c.isDigit
    · rw [if_pos hd] at h
      split at h
      · rename_i heq
        exact (List.dropWhile_sublist Char.isDigit).subset
          (by rw [heq]; exact List.mem_cons_self _ _)
      · exact List.mem_cons_of_mem c (ih h)
    · rw [if_neg hd] at h
      exact List.mem_cons_of_mem c (ih h)

theorem takeWhile_eq_self_of_all {p : Char → Bool} :
    ∀ {l : List Char}, (∀ c ∈ l, p c = true) → l.takeWhile p = l := by
  intro l
  induction l with
  | nil => intro _; rfl
  | cons a t ih =>
    intro h
    rw [List.takeWhile_cons, h a (by simp)]
    simp [ih (fun c hc => h c (by simp [hc]))]

theorem takeWhile_append_stop {p : Char → Bool} {x : Char} (hx : p x = false) (r : List Char) :
    ∀ {l : List Char}, (∀ c ∈ l, p c = true) →
      (l ++ x :: r).takeWhile p = l ∧ (l ++ x :: r).dropWhile p = x :: r := by
  intro l
  induction l with
  | nil =>
    intro _
    constructor
    · rw [List.nil_append, List.takeWhile_cons, hx]
      simp
    · rw [List.nil_append, List.dropWhile_cons, hx]
      simp
  | cons a t ih =>
    intro h
    have ha : p a = true := h a (by simp)
    have iht := ih (fun c hc => h c (by simp [hc]))
    constructor
    · rw [List.cons_append, List.takeWhile_cons, ha]
      simp [iht.1]
    · rw [List.cons_append, List.dropWhile_cons, ha]
      simp [iht.2]

theorem map_toLower_eq_self {l : List Char}
    (h : ∀ c ∈ l, c.isDigit = true ∨ c = '-' ∨ c = '–') :
    l.map Char.toLower = l := by
  induction l with
  | nil => rfl
  | cons a t ih =>
    rw [List.map_cons, ih (fun c hc => h c (by simp [hc]))]
    rcases h a (by simp) with hd | hs | hs
    · rw [toLower_of_isDigit hd]
    · rw [hs]
      rfl
    · rw [hs]
      rfl

/-- Claim C5: for every label of the numeric-range shape "N1-N2" — a nonempty digit
run, a hyphen or en-dash, a nonempty digit run — the Age-Band Parser returns
min = N1 (from `parse_age_min`) and max = N2 (from `parse_age_max`). -/
theorem range_label_parses (s1 s2 : List Char) (sep : Char)
    (h1 : s1 ≠ []) (h2 : s2 ≠ [])
    (hd1 : ∀ c ∈ s1, c.isDigit = true) (hd2 : ∀ c ∈ s2, c.isDigit = true)
    (hsep : sep = '-' ∨ sep = '–') :
    parse_age_min (some (String.mk (s1 ++ sep :: s2))) = some ((digitsToNat s1 : Nat) : Int) ∧
    parse_age_max (some (String.mk (s1 ++ sep :: s2))) = some ((digitsToNat s2 : Nat) : Int) := by
  have hsd : sep.isDigit = false := by
    rcases hsep with hs | hs <;> rw [hs] <;> decide
  have hmemchars : ∀ c ∈ s1 ++ sep :: s2, c.isDigit = true ∨ c = '-' ∨ c = '–' := by
    intro c hc
    rcases List.mem_append.mp hc with hc | hc
    · exact Or.inl (hd1 c hc)
    · rcases List.mem_cons.mp hc with hc | hc
      · rcases hsep with hs | hs
        · exact Or.inr (Or.inl (hc.trans hs))
        · exact Or.inr (Or.inr (hc.trans hs))
      · exact Or.inl (hd2 c hc)
  have hlower : lowerChars (String.mk (s1 ++ sep :: s2)) = s1 ++ sep :: s2 :=
    map_toLower_eq_self hmemchars
  have hnotmem : ∀ ch : Char, ch.isDigit = false → ch ≠ '-' → ch ≠ '–' →
      ch ∉ s1 ++ sep :: s2 := by
    intro ch hchd hch1 hch2 hmem
    rcases hmemchars ch hmem with hc | hc | hc
    · rw [hchd] at hc
      exact absurd hc (by simp)
    · exact hch1 hc
    · exact hch2 hc
  have hcontains : ∀ (c0 : Char) (cs0 : List Char), c0.isDigit = false → c0 ≠ '-' →
      c0 ≠ '–' → containsSub (s1 ++ sep :: s2) (c0 :: cs0) = false := by
    intro c0 cs0 ha hb hc
    rcases hcs : containsSub (s1 ++ sep :: s2) (c0 :: cs0) with _ | _
    · rfl
    · exact absurd (head_mem_of_containsSub hcs) (hnotmem c0 ha hb hc)
  have hunder : containsSub (s1 ++ sep :: s2) "under".data = false :=
    hcontains 'u' "nder".data (by decide) (by decide) (by decide)
  have hnot : containsSub (s1 ++ sep :: s2) "not".data = false :=
    hcontains 'n' "ot".data (by decide) (by decide) (by decide)
  have hunknown : containsSub (s1 ++ sep :: s2) "unknown".data = false :=
    hcontains 'u' "nknown".data (by decide) (by decide) (by decide)
  have hplus : findPlus (s1 ++ sep :: s2) = none := by
    rcases hp : findPlus (s1 ++ sep :: s2) with _ | n
    · rfl
    · exact absurd (plus_mem_of_findPlus hp) (hnotmem '+' (by decide) (by decide) (by decide))
  obtain ⟨htake1, hdrop1⟩ := takeWhile_append_stop hsd s2 hd1
  have hsepb : (sep == '-' || sep == '–') = true := by
    rcases hsep with hs | hs <;> rw [hs] <;> decide
  cases s1 with
  | nil => exact absurd rfl h1
  | cons c1 t1 =>
    cases s2 with
    | nil => exact absurd rfl h2
    | cons c2 t2 =>
      have htake2 : (c2 :: t2).takeWhile Char.isDigit = c2 :: t2 :=
        takeWhile_eq_self_of_all hd2
      have hrange : findRange ((c1 :: t1) ++ sep :: (c2 :: t2)) =
          some (digitsToNat (c1 :: t1), digitsToNat (c2 :: t2)) := by
        rw [List.cons_append, findRange, if_pos (hd1 c1 (by simp))]
        rw [show (c1 :: (t1 ++ sep :: (c2 :: t2))).dropWhile Char.isDigit = sep :: (c2 :: t2) by
          rw [← List.cons_append]; exact hdrop1]
        simp only [hsepb, if_true, htake2]
        rw [show (c1 :: (t1 ++ sep :: (c2 :: t2))).takeWhile Char.isDigit = c1 :: t1 by
          rw [← List.cons_append]; exact htake1]
      constructor
      · rw [parse_age_min]
        simp only [hlower, hunder, hnot, hunknown, hplus, hrange, Bool.or_self,
          if_false, Bool.false_eq_true]
      · rw [parse_age_max]
        simp only [hlower, hunder, hnot, hunknown, hplus, hrange, Bool.or_self,
          if_false, Bool.false_eq_true]

/-- Witness for claim C5: the label "15-24" parses to min 15, max 24. -/
theorem range_label_parses_witness :
    parse_age_min (some (String.mk ['1', '5', '-', '2', '4'])) =
      some ((digitsToNat ['1', '5'] : Nat) : Int) ∧
    parse_age_max (some (String.mk ['1', '5', '-', '2', '4'])) =
      some ((digitsToNat ['2', '4'] : Nat) : Int) :=
  range_label_parses ['1', '5'] ['2', '4'] '-' (by decide) (by decide)
    (by decide) (by decide) (Or.inl rfl)

/-- Claim C6: the fixed cases of the Age-Band Parser: "Under 1 year" parses to
(0, 1); "85+ years" parses to min 85 and max 85 + 9 = 94; "Not Stated" and
the missing label parse to missing bounds. -/
theorem age_parser_fixed_cases :
    parse_age_min (some "Under 1 year") = some 0 ∧
    parse_age_max (some "Under 1 year") = some 1 ∧
    parse_age_min (some "85+ years") = some 85 ∧
    parse_age_max (some "85+ years") = some 94 ∧
    parse_age_min (some "Not Stated") = none ∧
    parse_age_max (some "Not Stated") = none ∧
    parse_age_min none = none ∧
    parse_age_max none = none := by
  decide

/-- Claim C7: the min-parser checks the plus pattern before the range pattern and
the max-parser checks them in the opposite order, so the label "85+ 15-24",
which matches both patterns, yields min 85 (from the plus match) and
max 24 (from the range match) — an inconsistent pair with max < min. -/
theorem age_parser_priority_mismatch :
    findPlus (lowerChars "85+ 15-24") = some 85 ∧
    findRange (lowerChars "85+ 15-24") = some (15, 24) ∧
    parse_age_min (some "85+ 15-24") = some 85 ∧
    parse_age_max (some "85+ 15-24") = some 24 ∧
    (24 : Int) < 85 := by
  decide

/-- Claim C10: whenever the Age-Band Parser returns a non-missing bound, that bound
is a non-negative integer: every parsed value comes from an unsigned digit
run, the literal 0 or 1, or an unsigned value plus 9. -/
theorem parsed_bounds_nonneg (g : Option String) (v : Int) :
    (parse_age_min g = some v → 0 ≤ v) ∧ (parse_age_max g = some v → 0 ≤ v) := by
  constructor
  · intro h
    cases g with
    | none => simp [parse_age_min] at h
    | some s =>
      simp only [parse_age_min] at h
      split at h
      · injection h with hv
        omega
      · split at h
        · exact absurd h (by simp)
        · split at h
          · injection h with hv
            omega
          · split at h
            · injection h with hv
              omega
            · rcases hf : findNat (lowerChars s) with _ | m <;> rw [hf] at h
              · simp at h
              · have hv : ((m : Nat) : Int) = v := by
                  simpa using h
                omega
  · intro h
    cases g with
    | none => simp [parse_age_max] at h
    | some s =>
      simp only [parse_age_max] at h
      split at h
      · injection h with hv
        omega
      · split at h
        · exact absurd h (by simp)
        · split at h
          · injection h with hv
            omega
          · split at h
            · injection h with hv
              omega
            · rcases hf : findNat (lowerChars s) with _ | m <;> rw [hf] at h
              · simp at h
              · have hv : ((m : Nat) : Int) = v := by
                  simpa using h
                omega

/-- Witness for claim C10: at the label "5-14 years" the parser returns 5 and 14, and
both are non-negative by the theorem. -/
theorem parsed_bounds_nonneg_witness :
    parse_age_min (some "5-14 years") = some 5 ∧ (0 : Int) ≤ 5 ∧
    parse_age_max (some "5-14 years") = some 14 ∧ (0 : Int) ≤ 14 :=
  ⟨by decide, (parsed_bounds_nonneg (some "5-14 years") 5).1 (by decide),
    by decide, (parsed_bounds_nonneg (some "5-14 years") 14).2 (by decide)⟩

/-! The Merge & Order Stage's sort: stability and idempotence. -/

theorem rowLe_trans (cols : List String) (a b c : List Value)
    (hab : rowLe cols a b = true) (hbc : rowLe cols b c = true) : rowLe cols a c = true := by
  simp only [rowLe, decide_eq_true_eq] at hab hbc ⊢
  exact le_trans hab hbc

theorem rowLe_total (cols : List String) (a b : List Value) :
    (rowLe cols a b || rowLe cols b a) = true := by
  simp only [rowLe, Bool.or_eq_true, decide_eq_true_eq]
  exact le_total _ _

/-- Claim C8: the Merge & Order Stage's sort over the composite key (State, Year,
Age_Min, Sex, Race) is stable — two rows with equal composite keys that occur
in a given order in the input occur in the same order in the output — and
idempotent: re-sorting an already-sorted table yields the identical table. -/
theorem sortStage_stable_idempotent (cols : List String) (rows : List (List Value)) :
    (∀ a b, rowKey cols a = rowKey cols b → List.Sublist [a, b] rows →
      List.Sublist [a, b] (sortStage cols rows)) ∧
    sortStage cols (sortStage cols rows) = sortStage cols rows := by
  constructor
  · intro a b hkey hsub
    have hab : rowLe cols a b = true := by
      simp only [rowLe, decide_eq_true_eq, hkey]
      exact le_rfl
    exact List.pair_sublist_mergeSort (rowLe_trans cols) (rowLe_total cols) hab hsub
  · show List.mergeSort (List.mergeSort rows (rowLe cols)) (rowLe cols) =
      List.mergeSort rows (rowLe cols)
    exact List.mergeSort_of_sorted
      (List.sorted_mergeSort (rowLe_trans cols) (rowLe_total cols) rows)

/-- Witness for claim C8: two rows with equal keys keep their order through the sort,
and sorting twice equals sorting once, on a concrete two-row table. -/
theorem sortStage_stable_idempotent_witness :
    List.Sublist [[Value.str "AK", Value.num 1], [Value.str "AK", Value.num 2]]
      (sortStage ["State"] [[Value.str "AK", Value.num 1], [Value.str "AK", Value.num 2]]) ∧
    sortStage ["State"]
        (sortStage ["State"] [[Value.str "AK", Value.num 1], [Value.str "AK", Value.num 2]]) =
      sortStage ["State"] [[Value.str "AK", Value.num 1], [Value.str "AK", Value.num 2]] :=
  ⟨(sortStage_stable_idempotent ["State"]
      [[Value.str "AK", Value.num 1], [Value.str "AK", Value.num 2]]).1
      [Value.str "AK", Value.num 1] [Value.str "AK", Value.num 2]
      (by decide) (List.Sublist.refl _),
    (sortStage_stable_idempotent ["State"]
      [[Value.str "AK", Value.num 1], [Value.str "AK", Value.num 2]]).2⟩

/-! Frame property of the heap-level run. -/

/-- The invariant carried along the run: the caller's reference is still a
valid reference, the object behind it is unchanged, and the local variable
references a strictly newer object. -/
def FrameInv (h0 : PyHeap) (arg : Nat) (st : PyHeap × Nat) : Prop :=
  arg < st.1.objs.length ∧ st.1.objs[arg]? = h0.objs[arg]? ∧ arg < st.2

theorem frameInv_lineCopy (h : PyHeap) (arg : Nat) (hlt : arg < h.objs.length) :
    FrameInv h arg (lineCopy h arg) := by
  refine ⟨?_, ?_, ?_⟩
  · simp only [lineCopy, allocRef, List.length_append]
    omega
  · exact List.getElem?_append_left hlt
  · exact hlt

theorem frameInv_lineDrop {h0 : PyHeap} {arg : Nat} {st : PyHeap × Nat}
    (hI : FrameInv h0 arg st) : FrameInv h0 arg (lineDrop st) := by
  obtain ⟨hl, hg, hr⟩ := hI
  refine ⟨?_, ?_, ?_⟩
  · simp only [lineDrop, allocRef, List.length_append]
    omega
  · rw [← hg]
    exact List.getElem?_append_left hl
  · simp only [lineDrop, allocRef]
    omega

theorem frameInv_lineWrite {h0 : PyHeap} {arg : Nat} (f : DF → DF)
    {st : PyHeap × Nat} (hI : FrameInv h0 arg st) :
    FrameInv h0 arg (lineWrite f st) := by
  obtain ⟨hl, hg, hr⟩ := hI
  refine ⟨?_, ?_, hr⟩
  · simpa only [lineWrite, writeRef, List.length_set] using hl
  · rw [← hg]
    exact List.getElem?_set_ne (by omega)

theorem frameInv_lineStep4 {h0 : PyHeap} {arg : Nat} {st : PyHeap × Nat}
    (hI : FrameInv h0 arg st) : FrameInv h0 arg (lineStep4 st) := by
  obtain ⟨hl, hg, hr⟩ := hI
  unfold lineStep4
  split
  · refine ⟨?_, ?_, ?_⟩
    · simp only [allocRef, writeRef, List.length_append, List.length_set]
      omega
    · rw [← hg]
      simp only [allocRef, writeRef]
      rw [List.getElem?_append_left (by simpa only [List.length_set] using hl)]
      exact List.getElem?_set_ne (by omega)
    · simp only [allocRef, writeRef, List.length_set]
      omega
  · refine ⟨?_, ?_, hr⟩
    · simpa only [writeRef, List.length_set] using hl
    · rw [← hg]
      exact List.getElem?_set_ne (by omega)

theorem frameInv_progTail {h0 : PyHeap} {arg : Nat} {st : PyHeap × Nat}
    (hI : FrameInv h0 arg st) :
    (progTail st).1.objs[arg]? = h0.objs[arg]? ∧
    ∀ r, (progTail st).2 = Except.ok r → arg < r := by
  obtain ⟨hl, hg, hr⟩ := hI
  unfold progTail
  split
  · exact ⟨hg, fun r hrr => by cases hrr⟩
  · split
    · constructor
      · rw [← hg]
        exact List.getElem?_set_ne (by omega)
      · intro r hrr
        cases hrr
    · constructor
      · rw [← hg]
        simp only [allocRef, writeRef]
        rw [List.getElem?_append_left (by simpa only [List.length_set] using hl)]
        exact List.getElem?_set_ne (by omega)
      · intro r hrr
        injection hrr with hrr2
        simp only [allocRef, writeRef, List.length_set] at hrr2
        omega

/-- Claim C9: `clean_mortality` never mutates the frame passed to it: whatever the
input heap, after the run the object behind the caller's reference is
unchanged (every in-place write hits the line-89 copy or a later frame), and
when the run succeeds the returned reference is a strictly newer object. -/
theorem clean_mortality_no_mutation (h : PyHeap) (arg : Nat)
    (hlt : arg < h.objs.length) :
    (clean_mortality_prog h arg).1.objs[arg]? = h.objs[arg]? ∧
    ∀ r, (clean_mortality_prog h arg).2 = Except.ok r → arg < r :=
  frameInv_progTail (frameInv_lineWrite step6 (frameInv_lineWrite step5
    (frameInv_lineStep4 (frameInv_lineWrite step3 (frameInv_lineWrite step2
      (frameInv_lineDrop (frameInv_lineCopy h arg hlt)))))))

/-- Witness for claim C9: on a one-object heap the object behind reference 0 is intact
after the run. -/
theorem clean_mortality_no_mutation_witness :
    (clean_mortality_prog (PyHeap.mk [DF.mk [("Deaths", [Value.num 1])]]) 0).1.objs[0]? =
      (PyHeap.mk [DF.mk [("Deaths", [Value.num 1])]]).objs[0]? :=
  (clean_mortality_no_mutation (PyHeap.mk [DF.mk [("Deaths", [Value.num 1])]]) 0
    (by decide)).1

/-! Lemmas tracking columns through the cleaning steps. -/

theorem getCol_step1_notRedundant (df : DF) {n : String} (h : n ∉ redundant_cols) :
    getCol (step1 df) n = getCol df n :=
  getCol_dropCols_notMem df h

theorem mem_colNames_step2 {df : DF} {n : String} (h : n ∈ colNames df) :
    n ∈ colNames (step2 df) := by
  unfold step2
  split <;> exact colNames_setCol_of_mem df _ _ h

theorem getCol_step2_ne (df : DF) {n : String} (h : n ≠ "Unreliable_Flag") :
    getCol (step2 df) n = getCol df n := by
  unfold step2
  split <;> exact getCol_setCol_ne df h _

theorem colNames_coerceIfPresent (df : DF) (c : String) :
    colNames (coerceIfPresent df c) = colNames df := by
  unfold coerceIfPresent
  split
  · exact colNames_mapCol df c _
  · rfl

theorem getCol_coerceIfPresent_ne (df : DF) {n c : String} (h : n ≠ c) :
    getCol (coerceIfPresent df c) n = getCol df n := by
  unfold coerceIfPresent
  split
  · exact getCol_mapCol_ne df h _
  · rfl

theorem step3_eq (df : DF) :
    step3 df = coerceIfPresent (coerceIfPresent (coerceIfPresent df "Year") "Deaths")
      "Population" := rfl

theorem colNames_step3 (df : DF) : colNames (step3 df) = colNames df := by
  rw [step3_eq, colNames_coerceIfPresent, colNames_coerceIfPresent,
    colNames_coerceIfPresent]

theorem getCol_step3_ne (df : DF) {n : String} (h1 : n ≠ "Year") (h2 : n ≠ "Deaths")
    (h3 : n ≠ "Population") : getCol (step3 df) n = getCol df n := by
  rw [step3_eq, getCol_coerceIfPresent_ne _ h3, getCol_coerceIfPresent_ne _ h2,
    getCol_coerceIfPresent_ne _ h1]

theorem mem_colNames_step4 {df : DF} {n : String} (h : n ∈ colNames df)
    (hn : n ≠ "Crude Rate") : n ∈ colNames (step4 df) := by
  unfold step4 step4a
  split <;> dsimp only
  · refine colNames_dropCols_of_mem _ (colNames_setCol_of_mem df _ _ h) ?_
    simp [hn]
  · exact colNames_setCol_of_mem df _ _ h

theorem getCol_step4_ne (df : DF) {n : String} (h1 : n ≠ "CrudeRate_Reported")
    (h2 : n ≠ "Crude Rate") : getCol (step4 df) n = getCol df n := by
  unfold step4 step4a
  split <;> dsimp only
  · rw [getCol_dropCols_notMem _ (by simp [h2]), getCol_setCol_ne _ h1]
  · exact getCol_setCol_ne df h1 _

theorem mem_colNames_step5 {df : DF} {n : String} (h : n ∈ colNames df) :
    n ∈ colNames (step5 df) := by
  unfold step5
  split
  · rw [colNames_mapCol]
    exact h
  · exact h

theorem getCol_step5_ne (df : DF) {n : String} (h : n ≠ "Sex") :
    getCol (step5 df) n = getCol df n := by
  unfold step5
  split
  · exact getCol_mapCol_ne df h _
  · rfl

theorem mem_colNames_step6 {df : DF} {n : String} (h : n ∈ colNames df) :
    n ∈ colNames (step6 df) := by
  unfold step6
  split
  · exact colNames_setCol_of_mem _ _ _ (colNames_setCol_of_mem _ _ _
      (colNames_setCol_of_mem df _ _ h))
  · exact h

theorem getCol_step6_ne (df : DF) {n : String} (h1 : n ≠ "Age_Min")
    (h2 : n ≠ "Age_Max") (h3 : n ≠ "Age_Mid") :
    getCol (step6 df) n = getCol df n := by
  unfold step6
  split
  · rw [getCol_setCol_ne _ h3, getCol_setCol_ne _ h2, getCol_setCol_ne _ h1]
  · rfl

theorem step7_ok_iff {df : DF} {d7 : DF} (h : step7 df = Except.ok d7) :
    ∃ ds ps, getCol df "Deaths" = some ds ∧ getCol df "Population" = some ps ∧
      d7 = setCol df "CrudeRate_Calculated" (List.zipWith divCell ds ps) := by
  unfold step7 at h
  split at h
  · cases h
  · rename_i ds hds
    split at h
    · cases h
    · rename_i ps hps
      injection h with h
      exact ⟨ds, ps, hds, hps, h.symm⟩

theorem step8_ok_iff {df : DF} {out : DF} (h : step8 df = Except.ok out) :
    ∃ ps ds, getCol df "Population" = some ps ∧ getCol df "Deaths" = some ds ∧
      out = filterRows df (List.zipWith (fun p d => posCell p && nonnegCell d) ps ds) := by
  unfold step8 at h
  split at h
  · cases h
  · rename_i ps hps
    split at h
    · cases h
    · rename_i ds hds
      injection h with h
      exact ⟨ps, ds, hps, hds, h.symm⟩

/-! Membership of cells in a masked column. -/

theorem mem_applyMask_zipWith_left {f : Value → Value → Bool} {P : Value → Prop}
    (hP : ∀ a b, f a b = true → P a) :
    ∀ (xs ys : List Value), ∀ v ∈ applyMask (List.zipWith f xs ys) xs, P v := by
  intro xs
  induction xs with
  | nil =>
    intro ys v hv
    simp [applyMask] at hv
  | cons x xs ih =>
    intro ys v hv
    cases ys with
    | nil => simp [applyMask] at hv
    | cons y ys =>
      rw [List.zipWith_cons_cons] at hv
      rcases hf : f x y with _ | _ <;> rw [hf] at hv
      · exact ih ys v hv
      · rcases List.mem_cons.mp hv with rfl | hv
        · exact hP _ _ hf
        · exact ih ys v hv

theorem mem_applyMask_zipWith_right {f : Value → Value → Bool} {Q : Value → Prop}
    (hQ : ∀ a b, f a b = true → Q b) :
    ∀ (xs ys : List Value), ∀ v ∈ applyMask (List.zipWith f xs ys) ys, Q v := by
  intro xs
  induction xs with
  | nil =>
    intro ys v hv
    simp [applyMask] at hv
  | cons x xs ih =>
    intro ys v hv
    cases ys with
    | nil => simp [applyMask] at hv
    | cons y ys =>
      rw [List.zipWith_cons_cons] at hv
      rcases hf : f x y with _ | _ <;> rw [hf] at hv
      · exact ih ys v hv
      · rcases List.mem_cons.mp hv with rfl | hv
        · exact hQ _ _ hf
        · exact ih ys v hv

/-- Claim C1: on every successful run, the output frame has Population and Deaths
columns whose every cell passes the sanity filter — Population strictly
positive and Deaths non-negative — and the missing value fails both
comparisons, so a row with a missing Population or Deaths is excluded. -/
theorem output_filter_invariant (df out : DF) (h : clean_mortality df = Except.ok out) :
    ∃ ps ds, getCol out "Population" = some ps ∧ getCol out "Deaths" = some ds ∧
      (∀ v ∈ ps, posCell v = true) ∧ (∀ v ∈ ds, nonnegCell v = true) ∧
      posCell Value.na = false ∧ nonnegCell Value.na = false := by
  unfold clean_mortality at h
  split at h
  · cases h
  · obtain ⟨ps, ds, hps, hds, hout⟩ := step8_ok_iff h
    subst hout
    refine ⟨applyMask (List.zipWith (fun p d => posCell p && nonnegCell d) ps ds) ps,
      applyMask (List.zipWith (fun p d => posCell p && nonnegCell d) ps ds) ds,
      ?_, ?_, ?_, ?_, rfl, rfl⟩
    · rw [getCol_filterRows, hps]
      rfl
    · rw [getCol_filterRows, hds]
      rfl
    · refine mem_applyMask_zipWith_left ?_ ps ds
      intro a b hab
      exact (Bool.and_eq_true _ _ |>.mp hab).1
    · refine mem_applyMask_zipWith_right ?_ ps ds
      intro a b hab
      exact (Bool.and_eq_true _ _ |>.mp hab).2

/-- Witness for claim C1: a two-row frame whose second row has a missing Deaths value;
the output keeps only the first row and its cells pass both comparisons. -/
theorem output_filter_invariant_witness :
    ∃ ps ds,
      getCol (DF.mk [("Deaths", [Value.num 1]), ("Population", [Value.num 10]),
        ("Unreliable_Flag", [Value.num 0]), ("CrudeRate_Reported", [Value.na]),
        ("CrudeRate_Calculated", [Value.num 10000])]) "Population" = some ps ∧
      getCol (DF.mk [("Deaths", [Value.num 1]), ("Population", [Value.num 10]),
        ("Unreliable_Flag", [Value.num 0]), ("CrudeRate_Reported", [Value.na]),
        ("CrudeRate_Calculated", [Value.num 10000])]) "Deaths" = some ds ∧
      (∀ v ∈ ps, posCell v = true) ∧ (∀ v ∈ ds, nonnegCell v = true) ∧
      posCell Value.na = false ∧ nonnegCell Value.na = false :=
  output_filter_invariant
    (DF.mk [("Deaths", [Value.num 1, Value.na]),
      ("Population", [Value.num 10, Value.num 20])])
    (DF.mk [("Deaths", [Value.num 1]), ("Population", [Value.num 10]),
      ("Unreliable_Flag", [Value.num 0]), ("CrudeRate_Reported", [Value.na]),
      ("CrudeRate_Calculated", [Value.num 10000])])
    (by norm_num +decide [clean_mortality, step1, step2, step3, step4, step4a,
      step5, step6, step7, step8, coerceIfPresent, dropCols, setCol, mapCol, getCol,
      filterRows, applyMask, divCell, posCell, nonnegCell, toNumericCell, nrows,
      colNames])

/-- Counterexample for claim C2: the column accesses of lines 131 and 135 are not
guarded, so on a frame without a "Deaths" column `clean_mortality` raises
KeyError instead of recovering — the claim that no exception is raised for
every input table is false. -/
theorem clean_mortality_raises_on_missing_deaths :
    clean_mortality (DF.mk []) = Except.error "KeyError: Deaths" := rfl

/-- Amended claim C2: `clean_mortality` raises no exception on any input table
that has Deaths and Population columns; all other expected columns may be
absent, each recovered locally by a default (flag 0, NaN-filled column) or by
omitting the derived columns. -/
theorem clean_mortality_total_of_cols (df : DF)
    (hd : "Deaths" ∈ colNames df) (hp : "Population" ∈ colNames df) :
    ∃ out, clean_mortality df = Except.ok out := by
  have hmem : ∀ n, n ∈ colNames df → n ∉ redundant_cols → n ≠ "Crude Rate" →
      n ∈ colNames (step6 (step5 (step4 (step3 (step2 (step1 df)))))) := by
    intro n hn hr hcr
    apply mem_colNames_step6
    apply mem_colNames_step5
    apply mem_colNames_step4 _ hcr
    rw [colNames_step3]
    exact mem_colNames_step2 (colNames_dropCols_of_mem df hn hr)
  obtain ⟨ds, hds⟩ := getCol_isSome_of_mem (hmem "Deaths" hd (by decide) (by decide))
  obtain ⟨ps, hps⟩ := getCol_isSome_of_mem (hmem "Population" hp (by decide) (by decide))
  unfold clean_mortality
  rw [show step7 (step6 (step5 (step4 (step3 (step2 (step1 df)))))) =
      Except.ok (setCol (step6 (step5 (step4 (step3 (step2 (step1 df))))))
        "CrudeRate_Calculated" (List.zipWith divCell ds ps)) by
    unfold step7
    rw [hds, hps]]
  dsimp only
  refine ⟨filterRows (setCol (step6 (step5 (step4 (step3 (step2 (step1 df))))))
      "CrudeRate_Calculated" (List.zipWith divCell ds ps))
      (List.zipWith (fun p d => posCell p && nonnegCell d) ps ds), ?_⟩
  unfold step8
  rw [getCol_setCol_ne _ (show ("Population" : String) ≠ "CrudeRate_Calculated" by decide),
    hps]
  dsimp only
  rw [getCol_setCol_ne _ (show ("Deaths" : String) ≠ "CrudeRate_Calculated" by decide),
    hds]

/-- Witness for claim C2: a frame holding just Deaths and Population columns cleans
without an exception. -/
theorem clean_mortality_total_of_cols_witness :
    ("Deaths" ∈ colNames (DF.mk [("Deaths", [Value.num 2]), ("Population", [Value.num 7])])) ∧
    ∃ out, clean_mortality
      (DF.mk [("Deaths", [Value.num 2]), ("Population", [Value.num 7])]) = Except.ok out :=
  ⟨by decide, clean_mortality_total_of_cols
    (DF.mk [("Deaths", [Value.num 2]), ("Population", [Value.num 7])])
    (by decide) (by decide)⟩

/-- Claim C3: on every successful run, the Unreliable_Flag column of the output is,
row for row (through the final filter mask), the flag of the ORIGINAL crude
rate cell — before any numeric coercion; with no "Crude Rate" column the
column is the broadcast 0.  The flag of a cell is 1 exactly on the literal
string "Unreliable" (exact equality, not a substring test, and independent of
any numeric value) and 0 otherwise. -/
theorem unreliable_flag_spec (df out : DF) (h : clean_mortality df = Except.ok out) :
    (∀ c, getCol df "Crude Rate" = some c →
      ∃ mask, getCol out "Unreliable_Flag" = some (applyMask mask (c.map unreliableFlagCell))) ∧
    (getCol df "Crude Rate" = none →
      ∃ mask n, getCol out "Unreliable_Flag" =
        some (applyMask mask (List.replicate n (Value.num 0)))) ∧
    (∀ v, unreliableFlagCell v = Value.num 1 ↔ v = Value.str "Unreliable") ∧
    (∀ v, unreliableFlagCell v = Value.num 0 ∨ unreliableFlagCell v = Value.num 1) := by
  unfold clean_mortality at h
  split at h
  · cases h
  · rename_i d7 h7
    obtain ⟨ps, ds, hps, hds, hout⟩ := step8_ok_iff h
    obtain ⟨ds2, ps2, hds2, hps2, hd7⟩ := step7_ok_iff h7
    have hflagchain : getCol d7 "Unreliable_Flag" =
        getCol (step2 (step1 df)) "Unreliable_Flag" := by
      rw [hd7,
        getCol_setCol_ne _ (show ("Unreliable_Flag" : String) ≠ "CrudeRate_Calculated"
          by decide),
        getCol_step6_ne _ (show ("Unreliable_Flag" : String) ≠ "Age_Min" by decide)
          (show ("Unreliable_Flag" : String) ≠ "Age_Max" by decide)
          (show ("Unreliable_Flag" : String) ≠ "Age_Mid" by decide),
        getCol_step5_ne _ (show ("Unreliable_Flag" : String) ≠ "Sex" by decide),
        getCol_step4_ne _ (show ("Unreliable_Flag" : String) ≠ "CrudeRate_Reported"
          by decide) (show ("Unreliable_Flag" : String) ≠ "Crude Rate" by decide),
        getCol_step3_ne _ (show ("Unreliable_Flag" : String) ≠ "Year" by decide)
          (show ("Unreliable_Flag" : String) ≠ "Deaths" by decide)
          (show ("Unreliable_Flag" : String) ≠ "Population" by decide)]
    refine ⟨?_, ?_, ?_, ?_⟩
    · intro c hc
      refine ⟨List.zipWith (fun p d => posCell p && nonnegCell d) ps ds, ?_⟩
      rw [hout, getCol_filterRows, hflagchain]
      have h1 : getCol (step1 df) "Crude Rate" = some c := by
        rw [getCol_step1_notRedundant df (by decide)]
        exact hc
      unfold step2
      rw [h1]
      dsimp only
      rw [getCol_setCol_self]
      rfl
    · intro hc
      refine ⟨List.zipWith (fun p d => posCell p && nonnegCell d) ps ds,
        nrows (step1 df), ?_⟩
      rw [hout, getCol_filterRows, hflagchain]
      have h1 : getCol (step1 df) "Crude Rate" = none := by
        rw [getCol_step1_notRedundant df (by decide)]
        exact hc
      unfold step2
      rw [h1]
      dsimp only
      rw [getCol_setCol_self]
      rfl
    · intro v
      cases v with
      | num q => simp [unreliableFlagCell, isUnreliableCell]
      | str s => by_cases hs : s = "Unreliable" <;>
          simp [unreliableFlagCell, isUnreliableCell, hs]
      | na => simp [unreliableFlagCell, isUnreliableCell]
    · intro v
      by_cases hu : isUnreliableCell v = true <;> simp [unreliableFlagCell, hu]

/-- Witness for claim C3: a one-row frame whose crude rate is the literal "Unreliable"
cleans to a frame whose flag column is the flag of that original cell. -/
theorem unreliable_flag_spec_witness :
    ∃ mask,
      getCol (DF.mk [("Deaths", [Value.num 0]), ("Population", [Value.num 5]),
        ("Unreliable_Flag", [Value.num 1]), ("CrudeRate_Reported", [Value.na]),
        ("CrudeRate_Calculated", [Value.num 0])]) "Unreliable_Flag" =
      some (applyMask mask ([Value.str "Unreliable"].map unreliableFlagCell)) :=
  (unreliable_flag_spec
    (DF.mk [("Crude Rate", [Value.str "Unreliable"]), ("Deaths", [Value.num 0]),
      ("Population", [Value.num 5])])
    (DF.mk [("Deaths", [Value.num 0]), ("Population", [Value.num 5]),
      ("Unreliable_Flag", [Value.num 1]), ("CrudeRate_Reported", [Value.na]),
      ("CrudeRate_Calculated", [Value.num 0])])
    (by norm_num +decide [clean_mortality, step1, step2, step3, step4, step4a,
      step5, step6, step7, step8, coerceIfPresent, dropCols, setCol, mapCol, getCol,
      filterRows, applyMask, divCell, posCell, nonnegCell, toNumericCell, nrows,
      colNames])).1 [Value.str "Unreliable"] (by decide)

/-- Claim C4: the crude-rate cell computation gives Deaths / Population * 100000
whenever both operands are numeric and Population is positive, and the
missing value — never an infinity, which does not exist after the line-132
normalization — whenever Population is zero or either operand is missing;
and on a successful step 7 the new CrudeRate_Calculated column is exactly
this computation zipped over the Deaths and Population columns. -/
theorem crude_rate_calculated_spec :
    (∀ dq pq : ℚ, 0 < pq →
      divCell (Value.num dq) (Value.num pq) = Value.num (dq / pq * 100000)) ∧
    (∀ d, divCell d (Value.num 0) = Value.na ∧ divCell d Value.na = Value.na ∧
      divCell Value.na d = Value.na) ∧
    (∀ df d7 ds ps, step7 df = Except.ok d7 → getCol df "Deaths" = some ds →
      getCol df "Population" = some ps →
      getCol d7 "CrudeRate_Calculated" = some (List.zipWith divCell ds ps)) := by
  refine ⟨?_, ?_, ?_⟩
  · intro dq pq hpq
    unfold divCell
    dsimp only
    have hne : ¬ (pq = 0) := by
      intro e
      rw [e] at hpq
      exact lt_irrefl 0 hpq
    rw [if_neg hne]
  · intro d
    refine ⟨?_, ?_, ?_⟩ <;> cases d <;> simp [divCell]
  · intro df d7 ds ps h7 hds hps
    obtain ⟨ds2, ps2, hds2, hps2, hd7⟩ := step7_ok_iff h7
    rw [hds] at hds2
    rw [hps] at hps2
    injection hds2 with e1
    injection hps2 with e2
    rw [hd7, ← e1, ← e2, getCol_setCol_self]

/-- Witness for claim C4: concrete instances — a positive population gives the formula,
a zero population gives the missing value, and a concrete step-7 run stores
the zipped column. -/
theorem crude_rate_calculated_spec_witness :
    divCell (Value.num 1) (Value.num 2) = Value.num (1 / 2 * 100000) ∧
    divCell (Value.num 3) (Value.num 0) = Value.na ∧
    getCol (setCol (DF.mk [("Deaths", [Value.num 4]), ("Population", [Value.num 2])])
        "CrudeRate_Calculated" (List.zipWith divCell [Value.num 4] [Value.num 2]))
      "CrudeRate_Calculated" = some (List.zipWith divCell [Value.num 4] [Value.num 2]) :=
  ⟨crude_rate_calculated_spec.1 1 2 (by norm_num),
    (crude_rate_calculated_spec.2.1 (Value.num 3)).1,
    crude_rate_calculated_spec.2.2
      (DF.mk [("Deaths", [Value.num 4]), ("Population", [Value.num 2])])
      (setCol (DF.mk [("Deaths", [Value.num 4]), ("Population", [Value.num 2])])
        "CrudeRate_Calculated" (List.zipWith divCell [Value.num 4] [Value.num 2]))
      [Value.num 4] [Value.num 2] rfl (by decide) (by decide)⟩

end Mortality
